import Mathlib

/-!
Verification of the state-persistence model of the Motivation Widget
(`Widget_front.py`): JSON-backed state storage (`load_state`, `save_state`,
`ensure_state_file`), default merging (`_apply_defaults` / `deep_merge`,
`DEFAULTS`), input clamping (`clamp`, `_do_resize`), the selection-guarded
style actions (`apply_bold`, `apply_size`, `apply_color`), font loading
(`load_ttf`, `on_base_font_change`) and the formatting-tag capture/restore
routines (`_capture_tags`, `_apply_tags_from_state`).

JSON documents are modelled by the inductive `JVal`; Python dicts become
association lists that keep insertion order, mirroring Python dict ordering
semantics.  Numbers are modelled as rationals (the program never does
arithmetic on persisted numbers, so this is faithful for every decimal
literal).  A Python function that can raise an exception is modelled as a
function into `Option`, `none` standing for the raised exception.
-/

set_option autoImplicit false

namespace Widget

/-- JSON values, mirroring what Python's `json` module produces:
`None`, `bool`, numbers, `str`, `list`, `dict` (with string keys,
insertion-ordered). -/
inductive JVal where
  | jnull : JVal
  | jbool (b : Bool) : JVal
  | jnum (q : Rat) : JVal
  | jstr (s : String) : JVal
  | jarr (elems : List JVal) : JVal
  | jobj (fields : List (String × JVal)) : JVal

/-- `isinstance(v, dict)`. -/
def JVal.isObj : JVal → Bool
  | .jobj _ => true
  | _ => false

/-- Python dict read `d.get(k)` / `d[k]`: first binding of the key
(keys of a real dict are unique, so "first" is faithful). -/
def lookup : List (String × JVal) → String → Option JVal
  | [], _ => none
  | (k, v) :: rest, key => if k = key then some v else lookup rest key

/-- Python dict assignment `d[k] = v`: replace the binding if the key is
present (position kept), append at the end otherwise. -/
def assocSet : List (String × JVal) → String → JVal → List (String × JVal)
  | [], k, v => [(k, v)]
  | (k1, v1) :: rest, k, v =>
      if k1 = k then (k1, v) :: rest else (k1, v1) :: assocSet rest k v

/-- Python `d.setdefault(k, v)`: insert only when the key is absent. -/
def setdefault (fields : List (String × JVal)) (k : String) (v : JVal) :
    List (String × JVal) :=
  match lookup fields k with
  | some _ => fields
  | none => fields ++ [(k, v)]

/-- Follow a chain of keys through nested JSON objects. -/
def lookupPath : JVal → List String → Option JVal
  | v, [] => some v
  | .jobj fields, k :: rest =>
      match lookup fields k with
      | some u => lookupPath u rest
      | none => none
  | _, _ :: _ => none

/-- The loop body of `deep_merge(dst, src)` (Widget_front.py lines 234-240),
iterating over the items of the source dict:

    for k, v in src.items():
        if isinstance(v, dict):
            dst[k] = deep_merge(dst.get(k, {}), v)
        else:
            dst.setdefault(k, v)
    return dst

`none` models the `AttributeError` Python raises when `dst` is not a dict
but an item is processed (`dst.get` / `dst.setdefault` on a non-dict).
Note that when `src` is empty the loop body never runs, so a non-dict `dst`
is returned unchanged. -/
def mergeItems : JVal → List (String × JVal) → Option JVal
  | dst, [] => some dst
  | .jobj fields, (k, .jobj sv) :: rest =>
      match mergeItems ((lookup fields k).getD (.jobj [])) sv with
      | some m => mergeItems (.jobj (assocSet fields k m)) rest
      | none => none
  | .jobj fields, (k, v) :: rest =>
      mergeItems (.jobj (setdefault fields k v)) rest
  | _, _ :: _ => none

/-- `deep_merge(dst, src)`: `src.items()` requires `src` to be a dict. -/
def deep_merge (dst src : JVal) : Option JVal :=
  match src with
  | .jobj items => mergeItems dst items
  | _ => none

/-- The `DEFAULTS` dict (Widget_front.py lines 53-69). -/
def DEFAULTS : JVal :=
  .jobj
    [ ("geometry", .jstr "600x320+100+100"),
      ("always_on_top", .jbool true),
      ("alpha", .jnum 1),
      ("colors", .jobj
        [ ("background", .jstr "#0A1F44"),
          ("text", .jstr "#FFFFFF"),
          ("accent", .jstr "#FFD700"),
          ("border", .jstr "#222222") ]),
      ("border_thickness", .jnum 2),
      ("base_font", .jobj
        [ ("family", .jstr "Segoe UI"),
          ("size", .jnum 16),
          ("weight", .jstr "normal"),
          ("slant", .jstr "roman") ]),
      ("content", .jobj
        [ ("text", .jstr ""),
          ("tags", .jobj []) ]) ]

/-- `_apply_defaults` (line 242):
`self.state = deep_merge(self.state if isinstance(self.state, dict) else {{}}, DEFAULTS)`. -/
def apply_defaults (st : JVal) : Option JVal :=
  deep_merge (if st.isObj then st else .jobj []) DEFAULTS

/-! ## The state file

The file system is modelled per path.  A path either has no file, a file
whose contents are not well-formed JSON, or a file holding the JSON
serialization of a document.  Python's `json.dump`/`json.load` pair is
taken at its documented contract: loading a dumped document yields an
equal document (for every JSON-representable value, which is all the
program ever stores). -/

/-- Contents of one file-system path. -/
inductive FileData where
  | absent : FileData
  | corrupt : FileData
  | stored (v : JVal) : FileData

/-- The file system: what each path holds. -/
def FS : Type := String → FileData

/-- `ensure_state_file(path)` (lines 33-36): create the file containing
`{}` when it does not exist. -/
def ensure_state_file (fs : FS) (path : String) : FS :=
  match fs path with
  | .absent => fun q => if q = path then .stored (.jobj []) else fs q
  | _ => fs

/-- `load_state(path)` (lines 38-44): ensure the file exists, then parse it;
a parse failure is caught and yields `{}`.  Returns the parsed value and
the file system (which `ensure_state_file` may have extended). -/
def load_state (fs : FS) (path : String) : JVal × FS :=
  let fs2 := ensure_state_file fs path
  (match fs2 path with
   | .stored v => v
   | _ => .jobj [],
   fs2)

/-- `save_state(path, data)` (lines 46-48): overwrite the file with the
serialized document. -/
def save_state (fs : FS) (path : String) (data : JVal) : FS :=
  fun q => if q = path then .stored data else fs q

/-- `STATE_FILE` (line 21). -/
def STATE_FILE : String := "widget_state.json"

/-! ## Clamping and resize -/

/-- `clamp(v, lo, hi)` (lines 30-31): `max(lo, min(hi, v))`. -/
def clamp (v lo hi : Int) : Int := max lo (min hi v)

/-- `_do_resize` (lines 261-266): from the drag-start window size and
drag-start pointer position and the current pointer position, compute the
clamped new window size. -/
def do_resize (startW startH startRx startRy xRoot yRoot : Int) : Int × Int :=
  let dx := xRoot - startRx
  let dy := yRoot - startRy
  (clamp (startW + dx) 320 1600, clamp (startH + dy) 180 1200)

/-! ## The text widget and its formatting tags

A Tk text widget is modelled by its character content and its tags.  A tag
marks a set of characters; `tag_add(s, e)` marks the characters of the
half-open range, `tag_ranges` reads the marked set back as the sorted list
of maximal runs, which is exactly how Tk normalizes ranges.  Tk index
strings such as "1.5" are abstracted to character offsets: the program
treats them as opaque tokens (it only ever passes `str(index)` back to
`tag_add` on an identical text), so the offset is a faithful stand-in.
A tag's coverage is a bitmap, one `Bool` per character of the text. -/

/-- A font descriptor: the six attributes `_font_to_dict` captures
(lines 404-412) and `_dict_to_font` restores (lines 414-422). -/
structure FontD where
  family : String
  size : Int
  weight : String
  slant : String
  underline : Int
  overstrike : Int
deriving DecidableEq

/-- The tag options the program uses: `font`, `foreground`, `background`
(`none` models Tk's unset option, which `tag_cget` reports as the empty
string). -/
structure TagCfg where
  font : Option FontD := none
  foreground : Option String := none
  background : Option String := none
deriving DecidableEq

/-- One tag of the text widget: its configured options and the bitmap of
characters it covers. -/
structure TextTag where
  cfg : TagCfg
  cov : List Bool
deriving DecidableEq

/-- The text widget: content, tags in creation order (Tk's `tag_names`
order), and the current selection (`none` when `index("sel.first")`
raises `TclError`). -/
structure TextBuf where
  text : String
  tags : List (String × TextTag)
  sel : Option (Nat × Nat)
deriving DecidableEq

/-- Number of characters in the buffer. -/
def TextBuf.len (b : TextBuf) : Nat := b.text.length

/-- Update the named tag with `f`, creating it (with no options set and an
empty coverage bitmap) when it does not exist yet; a newly created tag goes
to the end of the creation-order list. -/
def updateTag (tags : List (String × TextTag)) (name : String) (len : Nat)
    (f : TextTag → TextTag) : List (String × TextTag) :=
  match tags with
  | [] => [(name, f { cfg := {}, cov := List.replicate len false })]
  | (n, t) :: rest =>
      if n = name then (n, f t) :: rest else (n, t) :: updateTag rest name len f

/-- Tk `tag_configure`. -/
def TextBuf.tagConfigure (b : TextBuf) (name : String) (g : TagCfg → TagCfg) :
    TextBuf :=
  { b with tags := updateTag b.tags name b.len fun t => { t with cfg := g t.cfg } }

/-- Mark the characters of `[s, e)` in a coverage bitmap whose first entry
is character `i`. -/
def tagAddCov (s e : Nat) : Nat → List Bool → List Bool
  | _, [] => []
  | i, bit :: rest => (bit || (decide (s ≤ i) && decide (i < e))) :: tagAddCov s e (i + 1) rest

/-- Tk `tag_add(name, s, e)`. -/
def TextBuf.tagAdd (b : TextBuf) (name : String) (s e : Nat) : TextBuf :=
  { b with tags := updateTag b.tags name b.len fun t => { t with cov := tagAddCov s e 0 t.cov } }

/-- Read a coverage bitmap back as Tk `tag_ranges` does: the sorted list of
maximal covered runs.  `pos` is the index of the first bitmap entry and
`run` the start of the currently open run, if any. -/
def runsAux : List Bool → Nat → Option Nat → List (Nat × Nat)
  | [], _, none => []
  | [], pos, some s => [(s, pos)]
  | true :: rest, pos, none => runsAux rest (pos + 1) (some pos)
  | true :: rest, pos, some s => runsAux rest (pos + 1) (some s)
  | false :: rest, pos, none => runsAux rest (pos + 1) none
  | false :: rest, pos, some s => (s, pos) :: runsAux rest (pos + 1) none

/-- Tk `tag_ranges` of a coverage bitmap. -/
def runs (cov : List Bool) : List (Nat × Nat) := runsAux cov 0 none

/-- One entry of the serialized tag map: the captured `config` dict and the
captured `ranges` list (line 453). -/
structure TagCapture where
  config : TagCfg
  ranges : List (Nat × Nat)
deriving DecidableEq

/-- The loop body of `_capture_tags` for one tag: skip `"sel"`, read back
font/foreground/background and the tag's ranges, and keep the tag when
either its config or its ranges are non-empty. -/
def captureOne (nt : String × TextTag) : Option (String × TagCapture) :=
  if nt.1 = "sel" then none
  else
    let cfg := nt.2.cfg
    let rngs := runs nt.2.cov
    if cfg = ({} : TagCfg) ∧ rngs = [] then none
    else some (nt.1, { config := cfg, ranges := rngs })

/-- `_capture_tags` (lines 424-454): walk `tag_names()` in order and
serialize each tag. -/
def capture_tags (b : TextBuf) : List (String × TagCapture) :=
  b.tags.filterMap captureOne

/-- The body of `_apply_tags_from_state`'s loop for one stored tag:
configure font, foreground and background when present, then re-add each
stored range. -/
def applyOneTag (b : TextBuf) (name : String) (d : TagCapture) : TextBuf :=
  let b1 :=
    match d.config.font with
    | some f => b.tagConfigure name fun c => { c with font := some f }
    | none => b
  let b2 :=
    match d.config.foreground with
    | some col => b1.tagConfigure name fun c => { c with foreground := some col }
    | none => b1
  let b3 :=
    match d.config.background with
    | some col => b2.tagConfigure name fun c => { c with background := some col }
    | none => b2
  d.ranges.foldl (fun bb r => bb.tagAdd name r.1 r.2) b3

/-- `_apply_tags_from_state` (lines 456-471): replay each stored tag in
order. -/
def apply_tags_from_state (b : TextBuf) : List (String × TagCapture) → TextBuf
  | [] => b
  | (name, d) :: rest => apply_tags_from_state (applyOneTag b name d) rest

/-- Whether offset `i` lies inside one of the ranges. -/
def covers (rs : List (Nat × Nat)) (i : Nat) : Bool :=
  rs.any fun r => decide (r.1 ≤ i) && decide (i < r.2)

/-- Whether a coverage bitmap whose first entry is character `pos` marks
character `i`. -/
def bitAt (l : List Bool) (pos i : Nat) : Prop :=
  pos ≤ i ∧ l.getD (i - pos) false = true

/-- A fresh text widget holding the given text: no tags, no selection. -/
def freshBuf (text : String) : TextBuf :=
  { text := text, tags := [], sel := none }

/-! ## The application

`MotivationWidget` state: the text widget, the Tk variables backing the
toolbar widgets, the in-memory state document, the mirrored widget colors,
and the file system holding the state file.  `dialogs` records the modal
error dialogs the app has shown (`messagebox.showerror`). -/

/-- `safe_int(x, default)` (lines 26-28) applied to a value that is
already an integer (the Tk `IntVar` contents): `int(x)` succeeds and
returns it. -/
def safe_int (x : Int) (_default : Int) : Int := x

/-- The mutable state of `MotivationWidget`. -/
structure App where
  buf : TextBuf
  base_font : FontD
  st : JVal
  fs : FS
  font_families : List String
  base_font_var : String
  base_size_var : Int
  border_var : Int
  alpha_var : Rat
  topmost : Bool
  geometry : String
  container_bg : String
  text_fg : String
  text_insertbg : String
  root_bg : String
  dialogs : List String

/-- Serialize a font descriptor as `_font_to_dict` does. -/
def font_to_json (f : FontD) : JVal :=
  .jobj
    [ ("family", .jstr f.family),
      ("size", .jnum f.size),
      ("weight", .jstr f.weight),
      ("slant", .jstr f.slant),
      ("underline", .jnum f.underline),
      ("overstrike", .jnum f.overstrike) ]

/-- Serialize a captured tag config (the `cfg` dict built at lines
429-442: `font`, then `foreground`, then `background`, each only when
set). -/
def tagcfg_to_json (c : TagCfg) : JVal :=
  .jobj
    ((match c.font with
      | some f => [("font", font_to_json f)]
      | none => []) ++
     (match c.foreground with
      | some col => [("foreground", .jstr col)]
      | none => []) ++
     (match c.background with
      | some col => [("background", .jstr col)]
      | none => []))

/-- Serialize captured ranges (offsets standing in for Tk index strings). -/
def ranges_to_json (rs : List (Nat × Nat)) : JVal :=
  .jarr (rs.map fun r => .jarr [.jnum r.1, .jnum r.2])

/-- Serialize the whole captured tag map. -/
def tags_to_json (ts : List (String × TagCapture)) : JVal :=
  .jobj (ts.map fun e =>
    (e.1, .jobj [ ("config", tagcfg_to_json e.2.config),
                  ("ranges", ranges_to_json e.2.ranges) ]))

/-- `self.state[k] = x`.  In the app lifecycle `self.state` is always a
dict (it went through `_apply_defaults`), so the non-dict case is dead;
it is kept total by returning the value unchanged. -/
def JVal.setKey (v : JVal) (k : String) (x : JVal) : JVal :=
  match v with
  | .jobj fields => .jobj (assocSet fields k x)
  | other => other

/-- `self.state[k1][k2] = x`.  After `_apply_defaults` succeeds, `k1` is
present and holds a dict, which the `getD` default mirrors. -/
def setKey2 (v : JVal) (k1 k2 : String) (x : JVal) : JVal :=
  match v with
  | .jobj fields =>
      .jobj (assocSet fields k1 (JVal.setKey ((lookup fields k1).getD (.jobj [])) k2 x))
  | other => other

/-- `save_all` (lines 483-505): refresh every field of `self.state` from
the live widgets, then write the state file.  `self.text.get("1.0",
"end-1c")` is the buffer text (Tk's trailing newline stripped, which the
model's `buf.text` already omits). -/
def save_all (a : App) : App :=
  let captured := capture_tags a.buf
  let st := setKey2 a.st "content" "text" (.jstr a.buf.text)
  let st := setKey2 st "content" "tags" (tags_to_json captured)
  let st := setKey2 st "colors" "background" (.jstr a.container_bg)
  let st := setKey2 st "colors" "text" (.jstr a.text_fg)
  let st := setKey2 st "colors" "accent" (.jstr a.text_insertbg)
  let st := setKey2 st "colors" "border" (.jstr a.root_bg)
  let st := JVal.setKey st "border_thickness" (.jnum a.border_var)
  let st := JVal.setKey st "alpha" (.jnum a.alpha_var)
  let st := JVal.setKey st "always_on_top" (.jbool a.topmost)
  let st := setKey2 st "base_font" "family" (.jstr a.base_font.family)
  let st := setKey2 st "base_font" "size" (.jnum a.base_font.size)
  let st := setKey2 st "base_font" "weight" (.jstr a.base_font.weight)
  let st := setKey2 st "base_font" "slant" (.jstr a.base_font.slant)
  let st := JVal.setKey st "geometry" (.jstr a.geometry)
  { a with st := st, fs := save_state a.fs STATE_FILE st }

/-- `apply_bold` (lines 284-292): no selection means return immediately;
otherwise derive a bold variant of the text widget's current font (which
is `self.base_font`), configure tag `"bold"` with it, add the selected
range, and save. -/
def apply_bold (a : App) : App :=
  match a.buf.sel with
  | none => a
  | some se =>
      let b := { a.base_font with weight := "bold" }
      let buf := (a.buf.tagConfigure "bold" fun c => { c with font := some b }).tagAdd "bold" se.1 se.2
      save_all { a with buf := buf }

/-- `apply_size` (lines 294-304). -/
def apply_size (a : App) (delta : Int) : App :=
  match a.buf.sel with
  | none => a
  | some se =>
      let new_size := clamp (a.base_font.size + delta) 8 96
      let f := { a.base_font with size := new_size }
      let tag_name := "size_" ++ toString new_size
      let buf := (a.buf.tagConfigure tag_name fun c => { c with font := some f }).tagAdd tag_name se.1 se.2
      save_all { a with buf := buf }

/-- `apply_color` (lines 306-314): the color chooser runs only when a
selection exists; `chosen` is its result (`none` when cancelled). -/
def apply_color (a : App) (chosen : Option String) : App :=
  match a.buf.sel with
  | none => a
  | some se =>
      match chosen with
      | none => a
      | some color =>
          let tag_name := "color_" ++ color
          let buf := (a.buf.tagConfigure tag_name fun c => { c with foreground := some color }).tagAdd tag_name se.1 se.2
          save_all { a with buf := buf }

/-- `on_base_font_change` (lines 363-371): read family and size from the
toolbar variables, clamp the size, reconfigure the base font (the text
widget shows it), record both in the state, save. -/
def on_base_font_change (a : App) : App :=
  let fam := a.base_font_var
  let size := clamp (safe_int a.base_size_var 16) 8 96
  let bf := { a.base_font with family := fam, size := size }
  let st := setKey2 a.st "base_font" "family" (.jstr fam)
  let st := setKey2 st "base_font" "size" (.jnum size)
  save_all { a with base_font := bf, st := st }

/-- Insert a string into a sorted list of strings. -/
def insertSorted (x : String) : List String → List String
  | [] => [x]
  | y :: ys => if x ≤ y then x :: y :: ys else y :: insertSorted x ys

/-- Insertion sort by string order, modelling `list.sort()`. -/
def sortStrings : List String → List String
  | [] => []
  | x :: rest => insertSorted x (sortStrings rest)

/-- `load_ttf` (lines 373-392).  `chosen_path` is the file picker's result
(`none` when cancelled).  `font_load` is the outcome of
`tkfont.Font(file=path)`: the font's family on success, the exception text
on failure.  On failure the handler shows a blocking error dialog and
returns; on success the family is registered (if new), selected, and
`on_base_font_change` runs. -/
def load_ttf (a : App) (chosen_path : Option String)
    (font_load : String → Except String FontD) : App :=
  match chosen_path with
  | none => a
  | some path =>
      match font_load path with
      | .error msg =>
          { a with dialogs := a.dialogs ++ ["Could not load font: " ++ msg] }
      | .ok f =>
          let fam := f.family
          let fams :=
            if fam ∈ a.font_families then a.font_families
            else sortStrings (a.font_families ++ [fam])
          on_base_font_change { a with font_families := fams, base_font_var := fam }

/-! ## Concrete sample inputs (used by the witnesses below) -/

/-- An empty file system. -/
def sampleFS : FS := fun _ => .absent

/-- The default base font as a `FontD`. -/
def sampleFont : FontD :=
  { family := "Segoe UI", size := 16, weight := "normal", slant := "roman",
    underline := 0, overstrike := 0 }

/-- The bold variant of the sample font. -/
def sampleBold : FontD := { sampleFont with weight := "bold" }

/-- A buffer holding "Hello" with a bold tag covering all five characters
and no active selection. -/
def sampleBuf : TextBuf :=
  { text := "Hello",
    tags := [("bold",
      { cfg := { font := some sampleBold },
        cov := [true, true, true, true, true] })],
    sel := none }

/-- A concrete application state. -/
def sampleApp : App :=
  { buf := sampleBuf,
    base_font := sampleFont,
    st := DEFAULTS,
    fs := sampleFS,
    font_families := ["Arial", "Segoe UI"],
    base_font_var := "Segoe UI",
    base_size_var := 16,
    border_var := 2,
    alpha_var := 1,
    topmost := true,
    geometry := "600x320+100+100",
    container_bg := "#0A1F44",
    text_fg := "#FFFFFF",
    text_insertbg := "#FFD700",
    root_bg := "#222222",
    dialogs := [] }

/-- The literal result of merging the defaults under the partial document
whose only field is an out-of-range alpha: the alpha survives, every other
field comes from `DEFAULTS` (appended in the defaults' order). -/
def mergedSample : JVal :=
  .jobj
    [ ("alpha", .jnum (3 / 10)),
      ("geometry", .jstr "600x320+100+100"),
      ("always_on_top", .jbool true),
      ("colors", .jobj
        [ ("background", .jstr "#0A1F44"),
          ("text", .jstr "#FFFFFF"),
          ("accent", .jstr "#FFD700"),
          ("border", .jstr "#222222") ]),
      ("border_thickness", .jnum 2),
      ("base_font", .jobj
        [ ("family", .jstr "Segoe UI"),
          ("size", .jnum 16),
          ("weight", .jstr "normal"),
          ("slant", .jstr "roman") ]),
      ("content", .jobj
        [ ("text", .jstr ""),
          ("tags", .jobj []) ]) ]

/-! # Theorems -/

/-! ## C5: resize clamping -/

/-- C5 (confirmed).  Resize clamp law: whatever the starting window size
and the drag delta (any magnitude, any sign), the width `_do_resize`
computes lies in the interval 320..1600 and the height in 180..1200. -/
theorem do_resize_clamped (startW startH startRx startRy xRoot yRoot : Int) :
    320 ≤ (do_resize startW startH startRx startRy xRoot yRoot).1 ∧
    (do_resize startW startH startRx startRy xRoot yRoot).1 ≤ 1600 ∧
    180 ≤ (do_resize startW startH startRx startRy xRoot yRoot).2 ∧
    (do_resize startW startH startRx startRy xRoot yRoot).2 ≤ 1200 := by
  simp only [do_resize, clamp]
  omega

/-! ## C2: fail-soft loading -/

/-- C2 (confirmed).  `load_state` is fail-soft: for every file system and
path it returns the parsed document when the file holds well-formed JSON,
and the empty document otherwise (missing file, or contents that fail to
parse); being a total function, it never raises to the caller. -/
theorem load_state_fail_soft (fs : FS) (path : String) :
    (load_state fs path).1 =
      match fs path with
      | .stored v => v
      | _ => .jobj [] := by
  unfold load_state ensure_state_file
  cases h : fs path <;> simp [h]

/-! ## C3: save/load round trip -/

/-- C3 (confirmed).  Round trip: saving any document and loading it back
from the same path yields the identical document. -/
theorem save_load_round_trip (fs : FS) (path : String) (doc : JVal) :
    (load_state (save_state fs path doc) path).1 = doc := by
  simp [load_state, ensure_state_file, save_state]

/-! ## C4: empty-selection style actions are no-ops -/

/-- C4 (confirmed).  When no text is selected, each of the three style
actions returns the application state unchanged: no tag is touched, the
in-memory state document is untouched, the state file is not written, and
no dialog is surfaced. -/
theorem style_actions_empty_selection (a : App) (h : a.buf.sel = none) :
    apply_bold a = a ∧ (∀ delta, apply_size a delta = a) ∧
    ∀ chosen, apply_color a chosen = a := by
  refine ⟨?_, fun delta => ?_, fun chosen => ?_⟩ <;>
    simp [apply_bold, apply_size, apply_color, h]

/-- C4 witness: the sample application has no selection and `apply_bold`
leaves it unchanged. -/
theorem style_actions_empty_selection_witness :
    apply_bold sampleApp = sampleApp :=
  (style_actions_empty_selection sampleApp rfl).1

/-! ## C7: font-load failure -/

/-- C7 (confirmed).  When loading the chosen font file fails, `load_ttf`
reports the failure through a blocking error dialog and aborts: the base
font (and hence the active text font), the state document, the text
widget and the state file are all unchanged. -/
theorem load_ttf_error_aborts (a : App) (path msg : String)
    (loader : String → Except String FontD) (h : loader path = .error msg) :
    (load_ttf a (some path) loader).base_font = a.base_font ∧
    (load_ttf a (some path) loader).st = a.st ∧
    (load_ttf a (some path) loader).buf = a.buf ∧
    (load_ttf a (some path) loader).fs = a.fs ∧
    (load_ttf a (some path) loader).dialogs =
      a.dialogs ++ ["Could not load font: " ++ msg] := by
  simp [load_ttf, h]

/-- C7 witness: a loader that always fails leaves the sample app's base
font unchanged. -/
theorem load_ttf_error_aborts_witness :
    (load_ttf sampleApp (some "f.ttf") (fun _ => .error "bad file")).base_font =
      sampleApp.base_font :=
  (load_ttf_error_aborts sampleApp "f.ttf" "bad file" (fun _ => .error "bad file") rfl).1

/-! ## Association-list plumbing for the merge proofs -/

theorem lookup_cons_self (k : String) (v : JVal) (rest : List (String × JVal)) :
    lookup ((k, v) :: rest) k = some v := by
  simp [lookup]

theorem lookup_cons_ne (k k1 : String) (v : JVal) (rest : List (String × JVal))
    (h : ¬k = k1) : lookup ((k, v) :: rest) k1 = lookup rest k1 := by
  simp [lookup, h]

theorem lookupPath_nil (v : JVal) : lookupPath v [] = some v := by
  cases v <;> rfl

theorem lookupPath_obj_cons (fields : List (String × JVal)) (k : String)
    (p : List String) :
    lookupPath (.jobj fields) (k :: p) =
      match lookup fields k with
      | some u => lookupPath u p
      | none => none := rfl

theorem lookup_assocSet_self (l : List (String × JVal)) (k : String) (v : JVal) :
    lookup (assocSet l k v) k = some v := by
  induction l with
  | nil => simp [assocSet, lookup]
  | cons p rest ih =>
      obtain ⟨k1, v1⟩ := p
      by_cases h : k1 = k
      · subst h; simp [assocSet, lookup]
      · simp [assocSet, lookup, h, ih]

theorem lookup_assocSet_ne (l : List (String × JVal)) (k k2 : String) (v : JVal)
    (h : k2 ≠ k) : lookup (assocSet l k v) k2 = lookup l k2 := by
  induction l with
  | nil => simp [assocSet, lookup, Ne.symm h]
  | cons p rest ih =>
      obtain ⟨k1, v1⟩ := p
      by_cases h1 : k1 = k
      · subst h1
        have h2 : ¬k1 = k2 := Ne.symm h
        simp [assocSet, lookup, h2]
      · simp only [assocSet, if_neg h1]
        by_cases h2 : k1 = k2
        · simp [lookup, h2]
        · simp [lookup, h2, ih]

theorem lookup_append (l1 l2 : List (String × JVal)) (k : String) :
    lookup (l1 ++ l2) k =
      match lookup l1 k with
      | some v => some v
      | none => lookup l2 k := by
  induction l1 with
  | nil => simp [lookup]
  | cons p rest ih =>
      obtain ⟨k1, v1⟩ := p
      by_cases h : k1 = k
      · simp [lookup, h]
      · simp [lookup, h, ih]

theorem lookup_setdefault_of_some (fields : List (String × JVal)) (k k1 : String)
    (v0 u : JVal) (h : lookup fields k1 = some u) :
    lookup (setdefault fields k v0) k1 = some u := by
  unfold setdefault
  cases hk : lookup fields k with
  | some w => exact h
  | none => simp only [lookup_append, h]

theorem lookup_setdefault_ne (fields : List (String × JVal)) (k k1 : String)
    (v0 : JVal) (h : k1 ≠ k) :
    lookup (setdefault fields k v0) k1 = lookup fields k1 := by
  unfold setdefault
  cases hk : lookup fields k with
  | some w => rfl
  | none =>
      rw [lookup_append]
      cases h1 : lookup fields k1 with
      | some w => rfl
      | none => simp [lookup, Ne.symm h]

theorem lookup_setdefault_self_of_none (fields : List (String × JVal)) (k : String)
    (v0 : JVal) (h : lookup fields k = none) :
    lookup (setdefault fields k v0) k = some v0 := by
  simp only [setdefault, h, lookup_append]
  simp [lookup]

theorem lookupPath_nonobj_cons (v0 : JVal) (h : v0.isObj = false) (k : String)
    (p : List String) : lookupPath v0 (k :: p) = none := by
  cases v0 <;> simp_all [JVal.isObj, lookupPath]

theorem mergeItems_cons_nonobj (fields : List (String × JVal)) (k : String)
    (v0 : JVal) (rest : List (String × JVal)) (h : v0.isObj = false) :
    mergeItems (.jobj fields) ((k, v0) :: rest) =
      mergeItems (.jobj (setdefault fields k v0)) rest := by
  cases v0 <;> first | rfl | simp [JVal.isObj] at h

/-- Master lemma about `deep_merge`'s loop: whenever the merge completes,
(1) every value present in the destination stays reachable, and leaf values
are preserved exactly, and (2) every leaf of the source that the
destination does not reach is filled in unchanged. -/
theorem mergeItems_spec (dst : JVal) (l : List (String × JVal)) :
    ∀ m, mergeItems dst l = some m →
      (∀ p v, lookupPath dst p = some v →
         ∃ w, lookupPath m p = some w ∧ (v.isObj = false → w = v)) ∧
      (∀ p v, lookupPath (.jobj l) p = some v → v.isObj = false →
         lookupPath dst p = none → lookupPath m p = some v) := by
  induction dst, l using mergeItems.induct with
  | case1 dst =>
      intro m hm
      simp only [mergeItems, Option.some.injEq] at hm
      subst hm
      constructor
      · intro p v hp
        exact ⟨v, hp, fun _ => rfl⟩
      · intro p v hp hleaf habs
        cases p with
        | nil =>
            rw [lookupPath_nil, Option.some.injEq] at hp
            subst hp
            simp [JVal.isObj] at hleaf
        | cons k rest => simp [lookupPath, lookup] at hp
  | case2 fields k sv rest msub hsub ihsub ihrest =>
      intro m hm
      simp only [mergeItems, hsub] at hm
      obtain ⟨S1, S2⟩ := ihsub msub hsub
      obtain ⟨R1, R2⟩ := ihrest m hm
      constructor
      · intro p v hp
        cases p with
        | nil =>
            rw [lookupPath_nil, Option.some.injEq] at hp
            subst hp
            exact ⟨m, lookupPath_nil m, by simp [JVal.isObj]⟩
        | cons k1 pr =>
            rw [lookupPath_obj_cons] at hp
            cases hu : lookup fields k1 with
            | none => simp [hu] at hp
            | some u =>
                simp only [hu] at hp
                by_cases hk : k1 = k
                · subst hk
                  obtain ⟨w, hw, hwl⟩ := S1 pr v (by simp only [hu, Option.getD_some]; exact hp)
                  obtain ⟨w2, hw2, hw2l⟩ :=
                    R1 (k1 :: pr) w
                      (by rw [lookupPath_obj_cons, lookup_assocSet_self]; exact hw)
                  refine ⟨w2, hw2, fun hleaf => ?_⟩
                  have hwv : w = v := hwl hleaf
                  subst hwv
                  exact hw2l hleaf
                · exact R1 (k1 :: pr) v
                    (by rw [lookupPath_obj_cons, lookup_assocSet_ne _ _ _ _ hk, hu]; exact hp)
      · intro p v hp hleaf habs
        cases p with
        | nil =>
            rw [lookupPath_nil, Option.some.injEq] at hp
            subst hp
            simp [JVal.isObj] at hleaf
        | cons k1 pr =>
            rw [lookupPath_obj_cons] at hp
            by_cases hk : k = k1
            · subst hk
              simp only [lookup_cons_self] at hp
              have hcur : lookupPath ((lookup fields k).getD (.jobj [])) pr = none := by
                rw [lookupPath_obj_cons] at habs
                cases hu : lookup fields k with
                | some u =>
                    simp only [hu] at habs
                    simpa [hu] using habs
                | none =>
                    cases pr with
                    | nil =>
                        rw [lookupPath_nil, Option.some.injEq] at hp
                        subst hp
                        simp [JVal.isObj] at hleaf
                    | cons k2 pr2 => simp [hu, lookupPath, lookup]
              have hfill := S2 pr v hp hleaf hcur
              obtain ⟨w2, hw2, hw2l⟩ :=
                R1 (k :: pr) v
                  (by rw [lookupPath_obj_cons, lookup_assocSet_self]; exact hfill)
              rw [hw2l hleaf] at hw2
              exact hw2
            · refine R2 (k1 :: pr) v ?_ hleaf ?_
              · rw [lookupPath_obj_cons]
                rw [lookup_cons_ne _ _ _ _ hk] at hp
                exact hp
              · rw [lookupPath_obj_cons, lookup_assocSet_ne _ _ _ _ (Ne.symm hk)]
                rw [lookupPath_obj_cons] at habs
                exact habs
  | case3 fields k sv rest hnone ihsub =>
      intro m hm
      simp [mergeItems, hnone] at hm
  | case4 fields k v0 rest hne ih =>
      intro m hm
      have hv0 : v0.isObj = false := by
        cases v0 with
        | jobj f => exact absurd rfl (fun hh => hne f hh)
        | jnull => rfl
        | jbool b => rfl
        | jnum q => rfl
        | jstr s => rfl
        | jarr es => rfl
      rw [mergeItems_cons_nonobj fields k v0 rest hv0] at hm
      obtain ⟨R1, R2⟩ := ih m hm
      constructor
      · intro p v hp
        cases p with
        | nil =>
            rw [lookupPath_nil, Option.some.injEq] at hp
            subst hp
            exact ⟨m, lookupPath_nil m, by simp [JVal.isObj]⟩
        | cons k1 pr =>
            rw [lookupPath_obj_cons] at hp
            cases hu : lookup fields k1 with
            | none => simp [hu] at hp
            | some u =>
                simp only [hu] at hp
                exact R1 (k1 :: pr) v
                  (by rw [lookupPath_obj_cons, lookup_setdefault_of_some _ _ _ _ _ hu]
                      exact hp)
      · intro p v hp hleaf habs
        cases p with
        | nil =>
            rw [lookupPath_nil, Option.some.injEq] at hp
            subst hp
            simp [JVal.isObj] at hleaf
        | cons k1 pr =>
            rw [lookupPath_obj_cons] at hp
            by_cases hk : k = k1
            · subst hk
              simp only [lookup_cons_self] at hp
              cases pr with
              | cons k2 pr2 =>
                  rw [lookupPath_nonobj_cons v0 hv0] at hp
                  exact absurd hp (by simp)
              | nil =>
                  rw [lookupPath_nil, Option.some.injEq] at hp
                  subst hp
                  have habs2 : lookup fields k = none := by
                    rw [lookupPath_obj_cons] at habs
                    cases hu : lookup fields k with
                    | some u =>
                        simp only [hu] at habs
                        rw [lookupPath_nil] at habs
                        exact absurd habs (by simp)
                    | none => rfl
                  obtain ⟨w, hw, hwl⟩ :=
                    R1 [k] v0
                      (by rw [lookupPath_obj_cons,
                            lookup_setdefault_self_of_none _ _ _ habs2]
                          exact lookupPath_nil v0)
                  rw [hwl hv0] at hw
                  exact hw
            · refine R2 (k1 :: pr) v ?_ hleaf ?_
              · rw [lookupPath_obj_cons]
                rw [lookup_cons_ne _ _ _ _ hk] at hp
                exact hp
              · rw [lookupPath_obj_cons, lookup_setdefault_ne _ _ _ _ (Ne.symm hk)]
                rw [lookupPath_obj_cons] at habs
                exact habs
  | case5 x head tail h1 h2 =>
      intro m hm
      obtain ⟨hk, hv⟩ := head
      cases x with
      | jobj fields => exact absurd rfl (fun hh => h2 fields hk hv hh rfl)
      | jnull => simp [mergeItems] at hm
      | jbool b => simp [mergeItems] at hm
      | jnum q => simp [mergeItems] at hm
      | jstr s => simp [mergeItems] at hm
      | jarr es => simp [mergeItems] at hm

/-! ## C1: default-merge as field-level fallback -/

/-- C1 counterexample.  The claim quantifies over every loaded document,
but `deep_merge` is not total: on the document whose key `colors` (a key
whose default value is a dict) holds the non-dict `5`, `_apply_defaults`
raises (modelled by `none`), so no key absent from the document — for
instance `geometry` — gets filled at all. -/
theorem merge_defaults_counterexample :
    apply_defaults (.jobj [("colors", .jnum 5)]) = none ∧
    lookup [("colors", JVal.jnum 5)] "geometry" = none := by
  exact ⟨rfl, rfl⟩

/-- C1 (corrected).  Amended claim: for every loaded document on which
`deep_merge` completes (equivalently, no key the document shares with a
dict-valued default holds a non-dict, recursively), the merge is a
field-level fallback: every field present in the document stays reachable
and every present leaf keeps its exact value, and every default leaf the
document does not provide is filled in with the default's value; in
particular merging defaults into the empty document yields exactly the
default document. -/
theorem merge_defaults_fallback :
    apply_defaults (.jobj []) = some DEFAULTS ∧
    ∀ fields m, apply_defaults (.jobj fields) = some m →
      (∀ p v, lookupPath (.jobj fields) p = some v →
         ∃ w, lookupPath m p = some w ∧ (v.isObj = false → w = v)) ∧
      (∀ p v, lookupPath DEFAULTS p = some v → v.isObj = false →
         lookupPath (.jobj fields) p = none → lookupPath m p = some v) := by
  constructor
  · rfl
  · intro fields m hm
    have hm2 : mergeItems (.jobj fields)
        (match DEFAULTS with
         | .jobj items => items
         | _ => []) = some m := hm
    exact mergeItems_spec (.jobj fields) _ m hm2

/-- C1 witness: merging the defaults into the partial document that only
sets `alpha` yields `mergedSample`; via the theorem's fill clause, the
absent leaf `geometry` is filled with the default geometry. -/
theorem merge_defaults_fallback_witness :
    lookupPath mergedSample ["geometry"] = some (.jstr "600x320+100+100") :=
  (merge_defaults_fallback.2 [("alpha", .jnum (3 / 10))] mergedSample rfl).2
    ["geometry"] (.jstr "600x320+100+100") rfl rfl rfl

/-! ## C6: out-of-range persisted opacity -/

/-- C6 (confirmed).  A persisted document whose `alpha` field is present
with a value outside the UI range (below 0.5 or above 1.0) keeps exactly
that value through loading and default-merging: no sanitization happens on
load. -/
theorem out_of_range_alpha_preserved (fs : FS) (path : String)
    (fields : List (String × JVal)) (q : Rat) (m : JVal)
    (hfs : fs path = .stored (.jobj fields))
    (hq : q < 1 / 2 ∨ 1 < q)
    (ha : lookup fields "alpha" = some (.jnum q))
    (hm : apply_defaults (load_state fs path).1 = some m) :
    lookupPath m ["alpha"] = some (.jnum q) := by
  have hload : (load_state fs path).1 = .jobj fields := by
    simp [load_state, ensure_state_file, hfs]
  rw [hload] at hm
  obtain ⟨S1, S2⟩ := mergeItems_spec (.jobj fields) _ m hm
  obtain ⟨w, hw, hwl⟩ := S1 ["alpha"] (.jnum q)
    (by rw [lookupPath_obj_cons, ha]; exact lookupPath_nil _)
  rw [hwl rfl] at hw
  exact hw

/-- C6 witness: the stored document with `alpha = 0.3` (below the UI
minimum 0.5) loads and merges to `mergedSample`, whose `alpha` is still
0.3. -/
theorem out_of_range_alpha_preserved_witness :
    lookupPath mergedSample ["alpha"] = some (.jnum (3 / 10)) :=
  out_of_range_alpha_preserved
    (fun _ => .stored (.jobj [("alpha", .jnum (3 / 10))])) STATE_FILE
    [("alpha", .jnum (3 / 10))] (3 / 10) mergedSample rfl
    (Or.inl (by norm_num)) rfl rfl

/-! ## C9: deep_merge is not total -/

/-- C9 (confirmed).  `deep_merge` is not total over loaded documents: in
the document whose key `content` — a key whose default value is a nested
dict — holds the non-dict string "oops", the merge raises (modelled by
`none`) instead of substituting or preserving a value, so startup fails on
such a persisted file. -/
theorem deep_merge_raises_on_nonobj_nested :
    apply_defaults (.jobj [("content", .jstr "oops")]) = none ∧
    (JVal.jstr "oops").isObj = false ∧
    lookupPath DEFAULTS ["content"] =
      some (.jobj [("text", .jstr ""), ("tags", .jobj [])]) := by
  exact ⟨rfl, rfl, rfl⟩

/-! ## C10: non-object top-level state -/

/-- C10 (confirmed).  A loaded state whose top-level JSON value is not an
object is replaced by the empty document before the merge, so
`_apply_defaults` produces exactly the full default document. -/
theorem nonobj_state_defaulted (v : JVal) (h : v.isObj = false) :
    apply_defaults v = some DEFAULTS := by
  cases v <;> first | rfl | simp [JVal.isObj] at h

/-- C10 witness: a top-level JSON list is defaulted to exactly
`DEFAULTS`. -/
theorem nonobj_state_defaulted_witness :
    apply_defaults (.jarr []) = some DEFAULTS :=
  nonobj_state_defaulted (.jarr []) rfl

/-! ## Bitmap and run lemmas for the tag model -/

theorem covers_nil (i : Nat) : covers [] i = false := rfl

theorem covers_cons (r : Nat × Nat) (rs : List (Nat × Nat)) (i : Nat) :
    covers (r :: rs) i = ((decide (r.1 ≤ i) && decide (i < r.2)) || covers rs i) := by
  simp [covers]

theorem bitAt_nil (pos i : Nat) : ¬bitAt [] pos i := by
  simp [bitAt]

theorem bitAt_cons_false (rest : List Bool) (pos i : Nat) :
    bitAt (false :: rest) pos i ↔ bitAt rest (pos + 1) i := by
  unfold bitAt
  constructor
  · rintro ⟨h1, h2⟩
    cases hip : i - pos with
    | zero => rw [hip] at h2; simp at h2
    | succ n =>
        rw [hip, List.getD_cons_succ] at h2
        have hn : n = i - (pos + 1) := by omega
        exact ⟨by omega, by rw [← hn]; exact h2⟩
  · rintro ⟨h1, h2⟩
    have hip : i - pos = (i - (pos + 1)) + 1 := by omega
    rw [hip, List.getD_cons_succ]
    exact ⟨by omega, h2⟩

theorem bitAt_cons_true (rest : List Bool) (pos i : Nat) :
    bitAt (true :: rest) pos i ↔ (i = pos ∨ bitAt rest (pos + 1) i) := by
  unfold bitAt
  constructor
  · rintro ⟨h1, h2⟩
    cases hip : i - pos with
    | zero => exact Or.inl (by omega)
    | succ n =>
        rw [hip, List.getD_cons_succ] at h2
        have hn : n = i - (pos + 1) := by omega
        exact Or.inr ⟨by omega, by rw [← hn]; exact h2⟩
  · rintro (h | ⟨h1, h2⟩)
    · subst h
      simp
    · have hip : i - pos = (i - (pos + 1)) + 1 := by omega
      rw [hip, List.getD_cons_succ]
      exact ⟨by omega, h2⟩

/-- What `runsAux` covers: the currently open run up to `pos`, plus
whatever the remaining bitmap marks. -/
theorem runsAux_covers (l : List Bool) :
    ∀ (pos i : Nat),
      (covers (runsAux l pos none) i = true ↔ bitAt l pos i) ∧
      (∀ s, s ≤ pos →
        (covers (runsAux l pos (some s)) i = true ↔
          ((s ≤ i ∧ i < pos) ∨ bitAt l pos i))) := by
  induction l with
  | nil =>
      intro pos i
      constructor
      · simp [runsAux, covers, bitAt]
      · intro s hs
        simp [runsAux, covers_cons, covers_nil, bitAt]
  | cons b rest ih =>
      intro pos i
      cases b with
      | false =>
          constructor
          · show covers (runsAux rest (pos + 1) none) i = true ↔ _
            rw [(ih (pos + 1) i).1, bitAt_cons_false]
          · intro s hs
            show covers ((s, pos) :: runsAux rest (pos + 1) none) i = true ↔ _
            rw [covers_cons, Bool.or_eq_true, bitAt_cons_false]
            rw [(ih (pos + 1) i).1]
            simp only [Bool.and_eq_true, decide_eq_true_eq]
      | true =>
          constructor
          · show covers (runsAux rest (pos + 1) (some pos)) i = true ↔ _
            rw [(ih (pos + 1) i).2 pos (by omega), bitAt_cons_true]
            constructor
            · rintro (⟨h1, h2⟩ | h)
              · exact Or.inl (by omega)
              · exact Or.inr h
            · rintro (h | h)
              · exact Or.inl (by omega)
              · exact Or.inr h
          · intro s hs
            show covers (runsAux rest (pos + 1) (some s)) i = true ↔ _
            rw [(ih (pos + 1) i).2 s (by omega), bitAt_cons_true]
            constructor
            · rintro (⟨h1, h2⟩ | h)
              · by_cases hip : i < pos
                · exact Or.inl ⟨h1, hip⟩
                · exact Or.inr (Or.inl (by omega))
              · exact Or.inr (Or.inr h)
            · rintro (⟨h1, h2⟩ | h | h)
              · exact Or.inl ⟨h1, by omega⟩
              · exact Or.inl ⟨by omega, by omega⟩
              · exact Or.inr h

/-- `tag_ranges` followed by membership agrees with the bitmap. -/
theorem covers_runs (c : List Bool) (i : Nat) :
    covers (runs c) i = c.getD i false := by
  have h := (runsAux_covers c 0 i).1
  have h2 : bitAt c 0 i ↔ c.getD i false = true := by
    unfold bitAt
    simp
  rw [h2] at h
  cases hc : c.getD i false with
  | false => rw [hc] at h; simpa using h
  | true => rw [hc] at h; simpa using h

theorem tagAddCov_length (s e : Nat) :
    ∀ (bm : List Bool) (i0 : Nat), (tagAddCov s e i0 bm).length = bm.length := by
  intro bm
  induction bm with
  | nil => intro i0; rfl
  | cons bit rest ih => intro i0; simp [tagAddCov, ih]

theorem tagAddCov_getD (s e : Nat) :
    ∀ (bm : List Bool) (i0 j : Nat), j < bm.length →
      (tagAddCov s e i0 bm).getD j false =
        (bm.getD j false || (decide (s ≤ i0 + j) && decide (i0 + j < e))) := by
  intro bm
  induction bm with
  | nil => intro i0 j h; simp at h
  | cons bit rest ih =>
      intro i0 j h
      cases j with
      | zero => simp [tagAddCov]
      | succ n =>
          simp only [tagAddCov, List.getD_cons_succ]
          have hn : n < rest.length := by simpa using h
          rw [ih (i0 + 1) n hn]
          have ha : i0 + 1 + n = i0 + (n + 1) := by omega
          rw [ha]

theorem foldAddCov_length (rs : List (Nat × Nat)) :
    ∀ (bm : List Bool),
      (rs.foldl (fun c r => tagAddCov r.1 r.2 0 c) bm).length = bm.length := by
  induction rs with
  | nil => intro bm; rfl
  | cons r rest ih =>
      intro bm
      rw [List.foldl_cons, ih, tagAddCov_length]

theorem foldAddCov_getD (rs : List (Nat × Nat)) :
    ∀ (bm : List Bool) (j : Nat), j < bm.length →
      (rs.foldl (fun c r => tagAddCov r.1 r.2 0 c) bm).getD j false =
        (bm.getD j false || covers rs j) := by
  induction rs with
  | nil => intro bm j h; simp [covers_nil]
  | cons r rest ih =>
      intro bm j h
      rw [List.foldl_cons, ih (tagAddCov r.1 r.2 0 bm) j (by rw [tagAddCov_length]; exact h)]
      rw [tagAddCov_getD r.1 r.2 bm 0 j h, covers_cons]
      simp only [Nat.zero_add, Bool.or_assoc]

/-- Replaying the captured ranges of a bitmap into an all-clear bitmap of
the same length reproduces the bitmap. -/
theorem restore_cov (c : List Bool) :
    (runs c).foldl (fun bm r => tagAddCov r.1 r.2 0 bm) (List.replicate c.length false) = c := by
  apply List.ext_getElem
  · rw [foldAddCov_length, List.length_replicate]
  · intro i h1 h2
    have hlen : i < (List.replicate c.length false).length := by
      simpa using h2
    have hg := foldAddCov_getD (runs c) (List.replicate c.length false) i hlen
    rw [covers_runs] at hg
    have hrep : (List.replicate c.length false).getD i false = false := by
      rw [List.getD_eq_getElem _ _ hlen, List.getElem_replicate]
    rw [hrep, Bool.false_or] at hg
    rw [List.getD_eq_getElem _ _ h1, List.getD_eq_getElem _ _ h2] at hg
    exact hg

/-! ## Buffer-level lemmas for capture and restore -/

theorem updateTag_absent (tags : List (String × TextTag)) (name : String) (len : Nat)
    (f : TextTag → TextTag) (h : ∀ t ∈ tags, t.1 ≠ name) :
    updateTag tags name len f =
      tags ++ [(name, f { cfg := {}, cov := List.replicate len false })] := by
  induction tags with
  | nil => rfl
  | cons p rest ih =>
      obtain ⟨n, t⟩ := p
      have hn : n ≠ name := h (n, t) (by simp)
      simp only [updateTag, if_neg hn, List.cons_append, List.cons.injEq, true_and]
      exact ih fun t2 ht2 => h t2 (by simp [ht2])

theorem updateTag_last (pre : List (String × TextTag)) (name : String) (t : TextTag)
    (len : Nat) (f : TextTag → TextTag) (h : ∀ p ∈ pre, p.1 ≠ name) :
    updateTag (pre ++ [(name, t)]) name len f = pre ++ [(name, f t)] := by
  induction pre with
  | nil => simp [updateTag]
  | cons p rest ih =>
      obtain ⟨n, t1⟩ := p
      have hn : n ≠ name := h (n, t1) (by simp)
      simp only [List.cons_append, updateTag, if_neg hn, List.cons.injEq, true_and]
      exact ih fun p2 hp2 => h p2 (by simp [hp2])

theorem tagConfigure_absent (b : TextBuf) (name : String) (g : TagCfg → TagCfg)
    (h : ∀ t ∈ b.tags, t.1 ≠ name) :
    b.tagConfigure name g =
      { b with tags := b.tags ++
          [(name, { cfg := g {}, cov := List.replicate b.len false })] } := by
  unfold TextBuf.tagConfigure
  rw [updateTag_absent _ _ _ _ h]

theorem tagConfigure_last (b : TextBuf) (pre : List (String × TextTag)) (name : String)
    (t : TextTag) (g : TagCfg → TagCfg) (hb : b.tags = pre ++ [(name, t)])
    (h : ∀ p ∈ pre, p.1 ≠ name) :
    b.tagConfigure name g =
      { b with tags := pre ++ [(name, { cfg := g t.cfg, cov := t.cov })] } := by
  unfold TextBuf.tagConfigure
  rw [hb, updateTag_last _ _ _ _ _ h]

theorem tagAdd_absent (b : TextBuf) (name : String) (s e : Nat)
    (h : ∀ t ∈ b.tags, t.1 ≠ name) :
    b.tagAdd name s e =
      { b with tags := b.tags ++
          [(name, { cfg := {}, cov := tagAddCov s e 0 (List.replicate b.len false) })] } := by
  unfold TextBuf.tagAdd
  rw [updateTag_absent _ _ _ _ h]

theorem tagAdd_last (b : TextBuf) (pre : List (String × TextTag)) (name : String)
    (t : TextTag) (s e : Nat) (hb : b.tags = pre ++ [(name, t)])
    (h : ∀ p ∈ pre, p.1 ≠ name) :
    b.tagAdd name s e =
      { b with tags := pre ++ [(name, { cfg := t.cfg, cov := tagAddCov s e 0 t.cov })] } := by
  unfold TextBuf.tagAdd
  rw [hb, updateTag_last _ _ _ _ _ h]

theorem foldAdd_last (rs : List (Nat × Nat)) :
    ∀ (b : TextBuf) (pre : List (String × TextTag)) (name : String) (t : TextTag),
      b.tags = pre ++ [(name, t)] → (∀ p ∈ pre, p.1 ≠ name) →
      rs.foldl (fun bb r => bb.tagAdd name r.1 r.2) b =
        { b with tags := pre ++ [(name,
            { cfg := t.cfg,
              cov := rs.foldl (fun c r => tagAddCov r.1 r.2 0 c) t.cov })] } := by
  induction rs with
  | nil =>
      intro b pre name t hb h
      simp only [List.foldl_nil]
      have ht : ({ cfg := t.cfg, cov := t.cov } : TextTag) = t := rfl
      rw [ht, ← hb]
  | cons r rest ih =>
      intro b pre name t hb h
      rw [List.foldl_cons, tagAdd_last b pre name t r.1 r.2 hb h]
      rw [ih _ pre name _ rfl h]
      rfl

theorem tagConfigure_last2 (text : String) (sel : Option (Nat × Nat))
    (pre : List (String × TextTag)) (name : String) (t : TextTag) (g : TagCfg → TagCfg)
    (h : ∀ p ∈ pre, p.1 ≠ name) :
    (TextBuf.mk text (pre ++ [(name, t)]) sel).tagConfigure name g =
      TextBuf.mk text (pre ++ [(name, { cfg := g t.cfg, cov := t.cov })]) sel :=
  tagConfigure_last _ pre name t g rfl h

theorem foldAdd_last2 (rs : List (Nat × Nat)) (text : String) (sel : Option (Nat × Nat))
    (pre : List (String × TextTag)) (name : String) (t : TextTag)
    (h : ∀ p ∈ pre, p.1 ≠ name) :
    rs.foldl (fun bb r => bb.tagAdd name r.1 r.2) (TextBuf.mk text (pre ++ [(name, t)]) sel) =
      TextBuf.mk text (pre ++ [(name,
        { cfg := t.cfg, cov := rs.foldl (fun c r => tagAddCov r.1 r.2 0 c) t.cov })]) sel :=
  foldAdd_last rs _ pre name t rfl h

/-- Replaying one captured tag whose name is new to the buffer appends a
tag holding exactly the captured config, whose coverage is the replay of
the captured ranges over an all-clear bitmap. -/
theorem applyOneTag_new (b : TextBuf) (name : String) (d : TagCapture)
    (hnew : ∀ t ∈ b.tags, t.1 ≠ name)
    (hne : ¬(d.config = ({} : TagCfg) ∧ d.ranges = [])) :
    applyOneTag b name d =
      { b with tags := b.tags ++ [(name,
          { cfg := d.config,
            cov := d.ranges.foldl (fun c r => tagAddCov r.1 r.2 0 c)
              (List.replicate b.len false) })] } := by
  obtain ⟨⟨fo, fg, bg⟩, rs⟩ := d
  unfold applyOneTag
  cases fo with
  | some f =>
      cases fg with
      | some c1 =>
          cases bg with
          | some c2 =>
              dsimp only
              rw [tagConfigure_absent b name _ hnew]
              rw [tagConfigure_last2 _ _ _ _ _ _ hnew]
              rw [tagConfigure_last2 _ _ _ _ _ _ hnew]
              rw [foldAdd_last2 _ _ _ _ _ _ hnew]
          | none =>
              dsimp only
              rw [tagConfigure_absent b name _ hnew]
              rw [tagConfigure_last2 _ _ _ _ _ _ hnew]
              rw [foldAdd_last2 _ _ _ _ _ _ hnew]
      | none =>
          cases bg with
          | some c2 =>
              dsimp only
              rw [tagConfigure_absent b name _ hnew]
              rw [tagConfigure_last2 _ _ _ _ _ _ hnew]
              rw [foldAdd_last2 _ _ _ _ _ _ hnew]
          | none =>
              dsimp only
              rw [tagConfigure_absent b name _ hnew]
              rw [foldAdd_last2 _ _ _ _ _ _ hnew]
  | none =>
      cases fg with
      | some c1 =>
          cases bg with
          | some c2 =>
              dsimp only
              rw [tagConfigure_absent b name _ hnew]
              rw [tagConfigure_last2 _ _ _ _ _ _ hnew]
              rw [foldAdd_last2 _ _ _ _ _ _ hnew]
          | none =>
              dsimp only
              rw [tagConfigure_absent b name _ hnew]
              rw [foldAdd_last2 _ _ _ _ _ _ hnew]
      | none =>
          cases bg with
          | some c2 =>
              dsimp only
              rw [tagConfigure_absent b name _ hnew]
              rw [foldAdd_last2 _ _ _ _ _ _ hnew]
          | none =>
              dsimp only
              cases rs with
              | nil => exact absurd ⟨rfl, rfl⟩ hne
              | cons r rest =>
                  rw [List.foldl_cons, tagAdd_absent b name r.1 r.2 hnew]
                  rw [foldAdd_last2 _ _ _ _ _ _ hnew]
                  rfl

/-- Replaying a whole captured tag map whose names are all new to the
buffer appends, in order, one tag per entry. -/
theorem apply_tags_appends (cap : List (String × TagCapture)) :
    ∀ (b : TextBuf),
      (∀ e ∈ cap, ∀ t ∈ b.tags, t.1 ≠ e.1) →
      (cap.map Prod.fst).Nodup →
      (∀ e ∈ cap, ¬(e.2.config = ({} : TagCfg) ∧ e.2.ranges = [])) →
      apply_tags_from_state b cap =
        { b with tags := b.tags ++ cap.map (fun e =>
            (e.1, { cfg := e.2.config,
                    cov := e.2.ranges.foldl (fun c r => tagAddCov r.1 r.2 0 c)
                      (List.replicate b.len false) })) } := by
  induction cap with
  | nil =>
      intro b _ _ _
      show b = _
      simp only [List.map_nil, List.append_nil]
  | cons e rest ih =>
      intro b hnew hnodup hne
      obtain ⟨name, d⟩ := e
      show apply_tags_from_state (applyOneTag b name d) rest = _
      rw [applyOneTag_new b name d
            (fun t ht => hnew (name, d) (by simp) t ht)
            (hne (name, d) (by simp))]
      rw [ih _
            (by
              intro e2 he2 t ht
              rcases List.mem_append.mp ht with hin | hlast
              · exact hnew e2 (by simp [he2]) t hin
              · simp only [List.mem_singleton] at hlast
                subst hlast
                intro hcontra
                dsimp only at hcontra
                refine (List.nodup_cons.mp hnodup).1 ?_
                rw [hcontra]
                exact List.mem_map.mpr ⟨e2, he2, rfl⟩)
            (List.nodup_cons.mp hnodup).2
            (fun e2 he2 => hne e2 (by simp [he2]))]
      simp only [List.map_cons, List.append_assoc, List.singleton_append]
      rfl

theorem captureOne_eq_some (nt : String × TextTag) (e : String × TagCapture)
    (h : captureOne nt = some e) :
    e.1 = nt.1 ∧ e.2.config = nt.2.cfg ∧ e.2.ranges = runs nt.2.cov ∧
      nt.1 ≠ "sel" ∧ ¬(e.2.config = ({} : TagCfg) ∧ e.2.ranges = []) := by
  unfold captureOne at h
  by_cases hs : nt.1 = "sel"
  · rw [if_pos hs] at h
    exact absurd h (by simp)
  · rw [if_neg hs] at h
    dsimp only at h
    by_cases hc : nt.2.cfg = ({} : TagCfg) ∧ runs nt.2.cov = []
    · rw [if_pos hc] at h
      exact absurd h (by simp)
    · rw [if_neg hc] at h
      rw [Option.some.injEq] at h
      subst h
      exact ⟨rfl, rfl, rfl, hs, hc⟩

theorem captureOne_keep (nt : String × TextTag) (hs : nt.1 ≠ "sel")
    (hc : ¬(nt.2.cfg = ({} : TagCfg) ∧ runs nt.2.cov = [])) :
    captureOne nt = some (nt.1, { config := nt.2.cfg, ranges := runs nt.2.cov }) := by
  unfold captureOne
  rw [if_neg hs]
  dsimp only
  rw [if_neg hc]

theorem capture_tags_mem (b : TextBuf) (e : String × TagCapture)
    (he : e ∈ capture_tags b) :
    ∃ t, (e.1, t) ∈ b.tags ∧ e.1 ≠ "sel" ∧ e.2.config = t.cfg ∧
      e.2.ranges = runs t.cov ∧ ¬(e.2.config = ({} : TagCfg) ∧ e.2.ranges = []) := by
  unfold capture_tags at he
  rw [List.mem_filterMap] at he
  obtain ⟨nt, hmem, hf⟩ := he
  obtain ⟨h1, h2, h3, h4, h5⟩ := captureOne_eq_some nt e hf
  refine ⟨nt.2, ?_, ?_, h2, h3, h5⟩
  · rw [h1]
    exact hmem
  · rw [h1]
    exact h4

theorem filterMap_names_sublist (l : List (String × TextTag)) :
    ((l.filterMap captureOne).map Prod.fst).Sublist (l.map Prod.fst) := by
  induction l with
  | nil => simp
  | cons nt rest ih =>
      rw [List.filterMap_cons]
      cases h : captureOne nt with
      | none =>
          rw [List.map_cons]
          exact ih.trans (List.sublist_cons_self _ _)
      | some e =>
          rw [List.map_cons, List.map_cons]
          have h1 : e.1 = nt.1 := (captureOne_eq_some nt e h).1
          rw [h1]
          exact ih.cons₂ nt.1

theorem filterMap_id_of_mem {α : Type} (l : List α) (h : α → Option α)
    (hh : ∀ a ∈ l, h a = some a) : l.filterMap h = l := by
  induction l with
  | nil => rfl
  | cons a rest ih =>
      rw [List.filterMap_cons, hh a (by simp)]
      rw [ih fun a2 ha2 => hh a2 (by simp [ha2])]

/-- C8 core: capturing the tags of a buffer, replaying them into a fresh
buffer holding the identical text, and re-capturing, reproduces the
captured tag map exactly (in particular the tag-to-ranges mapping). -/
theorem capture_restore_recapture (b : TextBuf)
    (hnodup : (b.tags.map Prod.fst).Nodup)
    (hlen : ∀ t ∈ b.tags, t.2.cov.length = b.text.length) :
    capture_tags (apply_tags_from_state (freshBuf b.text) (capture_tags b)) =
      capture_tags b := by
  have hcapnodup : ((capture_tags b).map Prod.fst).Nodup :=
    (filterMap_names_sublist b.tags).nodup hnodup
  rw [apply_tags_appends (capture_tags b) (freshBuf b.text)
        (by intro e he t ht; simp [freshBuf] at ht)
        hcapnodup
        (fun e he => by
          obtain ⟨t, _, _, _, _, hne⟩ := capture_tags_mem b e he
          exact hne)]
  show List.filterMap captureOne _ = _
  have hfresh : (freshBuf b.text).tags = [] := rfl
  rw [hfresh, List.nil_append, List.filterMap_map]
  apply filterMap_id_of_mem
  intro e he
  obtain ⟨t, htmem, hsel, hcfg, hrng, hne⟩ := capture_tags_mem b e he
  have hcov : e.2.ranges.foldl (fun c r => tagAddCov r.1 r.2 0 c)
      (List.replicate (freshBuf b.text).len false) = t.cov := by
    have hl : (freshBuf b.text).len = t.cov.length := by
      show b.text.length = t.cov.length
      exact (hlen (e.1, t) htmem).symm
    rw [hl, hrng]
    exact restore_cov t.cov
  show captureOne (e.1, { cfg := e.2.config, cov := _ }) = some e
  rw [hcov]
  rw [captureOne_keep (e.1, { cfg := e.2.config, cov := t.cov })
        hsel
        (by
          dsimp only
          rw [← hrng]
          exact hne)]
  rw [Option.some.injEq]
  dsimp only
  rw [← hrng]

/-- C8 witness: the sample buffer (text "Hello", one bold tag over all
five characters) round-trips through capture, fresh-buffer restore and
re-capture. -/
theorem capture_restore_recapture_witness :
    capture_tags (apply_tags_from_state (freshBuf sampleBuf.text) (capture_tags sampleBuf)) =
      capture_tags sampleBuf :=
  capture_restore_recapture sampleBuf (by decide) (by decide)

end Widget
